import Mathlib

/-!
# Noise cipher suite: nonce derivation, suite naming and the compliance pipeline

A shallow embedding of `cipher_suite.go`, `cipher_no_fips.go` and
`cipher_fips_windows.go`.

* Byte slices are lists of byte values, `uint64` sequence numbers are natural
  numbers below `2 ^ 64`.
* The Go standard AEADs (`cipher.NewGCM`, `chacha20poly1305.New`), the OpenSSL
  EVP cipher and the PEC engine are library code; they enter as structures that
  carry the functions the Go code calls together with the laws it relies on.
* A Go run-time panic (index or slice bound out of range) is the value `none`.
* `fmt.Printf` calls only write to standard output and are left out.

The three source files define the same methods for different builds.  The
definitions of `cipher_suite.go` live directly in the namespace `Noise`, those of
the `!fips` build in `Noise.NoFips` and those of the `fips` build in
`Noise.Fips`.
-/

namespace Noise

/-- A Go byte slice. -/
abbrev Bytes := List Nat

/-- A Go error value, identified by its message. -/
abbrev Error := String

/-! ## Library primitives -/

/-- The keyed object behind `cipher.AEAD`: `sealed` yields ciphertext and tag for a
nonce, a plaintext and associated data, `opened` authenticates and decrypts.
Opening what was sealed under the same nonce and associated data gives the
plaintext back. -/
structure AEAD where
  sealed : Bytes → Bytes → Bytes → Bytes
  opened : Bytes → Bytes → Bytes → Except Error Bytes
  opened_sealed : ∀ nonce plaintext ad,
    opened nonce (sealed nonce plaintext ad) ad = Except.ok plaintext

/-- The method `Seal(dst, nonce, plaintext, additionalData)` of `cipher.AEAD`: the
sealed message is appended to `dst`. -/
def AEAD.Seal (a : AEAD) (dst nonce plaintext additionalData : Bytes) : Bytes :=
  dst ++ a.sealed nonce plaintext additionalData

/-- The method `Open(dst, nonce, ciphertext, additionalData)` of `cipher.AEAD`: on
success the plaintext is appended to `dst` and the error is nil, on failure
the slice is nil and the error is set. -/
def AEAD.Open (a : AEAD) (dst nonce ciphertext additionalData : Bytes) :
    Bytes × Option Error :=
  match a.opened nonce ciphertext additionalData with
  | Except.ok plaintext => (dst ++ plaintext, none)
  | Except.error e => ([], some e)

/-- The AEAD constructors of the Go libraries, by key: `NewGCM k` stands for
`aes.NewCipher(k[:])` followed by `cipher.NewGCM`, `NewChaCha k` for
`chacha20poly1305.New(k[:])`.  Both succeed on every 32-byte key. -/
structure Primitives where
  NewGCM : Bytes → AEAD
  NewChaCha : Bytes → AEAD

/-- The OpenSSL EVP cipher `EVP_aes_128_gcm` as driven by `cipher_suite.go`:
`EncryptUpdate key iv input` is what `EVP_EncryptInit_ex` followed by
`EVP_EncryptUpdate` writes to the output buffer, `DecryptUpdate` likewise for
decryption.  GCM is a counter mode: an update writes exactly as many bytes as
it reads, and the final call writes none. -/
structure Engine where
  EncryptUpdate : Bytes → Bytes → Bytes → Bytes
  DecryptUpdate : Bytes → Bytes → Bytes → Bytes
  decrypt_encrypt : ∀ key iv input, DecryptUpdate key iv (EncryptUpdate key iv input) = input
  encrypt_length : ∀ key iv input, (EncryptUpdate key iv input).length = input.length
  decrypt_length : ∀ key iv input, (DecryptUpdate key iv input).length = input.length

/-- The PEC engine behind `Engine_EX.h`: `EncryptText_GO key input` is the byte
string the C function writes to its output buffer (its length is the reported
output length), `DecryptText_GO` likewise, and decryption inverts
encryption. -/
structure PEC where
  EncryptText_GO : Bytes → Bytes → Bytes
  DecryptText_GO : Bytes → Bytes → Bytes
  decrypt_encrypt : ∀ key input, DecryptText_GO key (EncryptText_GO key input) = input

/-! ## encoding/binary -/

/-- The bytes `binary.BigEndian.PutUint64` stores for `v`: `byte(v >> 56)` first,
`byte(v)` last. -/
def BigEndian_PutUint64 (v : Nat) : Bytes :=
  [(v >>> 56) % 256, (v >>> 48) % 256, (v >>> 40) % 256, (v >>> 32) % 256,
   (v >>> 24) % 256, (v >>> 16) % 256, (v >>> 8) % 256, v % 256]

/-- The bytes `binary.LittleEndian.PutUint64` stores for `v`: `byte(v)` first,
`byte(v >> 56)` last. -/
def LittleEndian_PutUint64 (v : Nat) : Bytes :=
  [v % 256, (v >>> 8) % 256, (v >>> 16) % 256, (v >>> 24) % 256,
   (v >>> 32) % 256, (v >>> 40) % 256, (v >>> 48) % 256, (v >>> 56) % 256]

/-- The value a sequence of bytes denotes when read most significant byte
first. -/
def beValue (bs : Bytes) : Nat :=
  bs.foldl (fun acc b => acc * 256 + b) 0

/-- The value a sequence of bytes denotes when read least significant byte
first. -/
def leValue (bs : Bytes) : Nat :=
  bs.foldr (fun b acc => b + 256 * acc) 0

/-! ## cipher_suite.go: interfaces and registry -/

/-- The type `aeadCipher`: an AEAD, the nonce function, the key and the
internal name. -/
structure aeadCipher where
  aead : AEAD
  nonce : Nat → Bytes
  key : Bytes
  name : String

/-- The method `Key`. -/
def aeadCipher.Key (c : aeadCipher) : Bytes := c.key

/-- The method `Name`. -/
def aeadCipher.Name (c : aeadCipher) : String := c.name

/-- The type `cipherFn`: a constructor of keyed ciphers and the negotiation
name. -/
structure cipherFn where
  fn : Bytes → aeadCipher
  name : String

/-- The method `Cipher`. -/
def cipherFn.Cipher (c : cipherFn) (k : Bytes) : aeadCipher := c.fn k

/-- The method `CipherName`. -/
def cipherFn.CipherName (c : cipherFn) : String := c.name

/-- The function `cipherAESGCM`: the nonce is a zeroed 12-byte array whose bytes
4 to 11 are overwritten by `binary.BigEndian.PutUint64`. -/
def cipherAESGCM (P : Primitives) (k : Bytes) : aeadCipher :=
  { aead := P.NewGCM k
    nonce := fun n => (List.replicate 12 0).take 4 ++ BigEndian_PutUint64 n
    key := k
    name := "AESGCM" }

/-- The function `cipherAESGCMFIPS`, the same text in `cipher_suite.go` and in
`cipher_fips_windows.go`. -/
def cipherAESGCMFIPS (P : Primitives) (k : Bytes) : aeadCipher :=
  { aead := P.NewGCM k
    nonce := fun n => (List.replicate 12 0).take 4 ++ BigEndian_PutUint64 n
    key := k
    name := "AESGCMFIPS" }

/-- The function `cipherChaChaPoly`: bytes 4 to 11 of the nonce are written by
`binary.LittleEndian.PutUint64`. -/
def cipherChaChaPoly (P : Primitives) (k : Bytes) : aeadCipher :=
  { aead := P.NewChaCha k
    nonce := fun n => (List.replicate 12 0).take 4 ++ LittleEndian_PutUint64 n
    key := k
    name := "ChaChaPoly" }

/-- The registry entry `CipherAESGCM`. -/
def CipherAESGCM (P : Primitives) : cipherFn := ⟨cipherAESGCM P, "AESGCM"⟩

/-- The registry entry `CipherAESGCMFIPS` of `cipher_suite.go`. -/
def CipherAESGCMFIPS (P : Primitives) : cipherFn := ⟨cipherAESGCMFIPS P, "AESGCM"⟩

/-- The registry entry `CipherChaChaPoly`. -/
def CipherChaChaPoly (P : Primitives) : cipherFn := ⟨cipherChaChaPoly P, "ChaChaPoly"⟩

/-- The interface `DHFunc`, reduced to the constants the suite composer reads;
key generation and the curve computation take no part in naming. -/
structure DHFunc where
  DHLen : Nat
  DHName : String

/-- The interface `HashFunc`, reduced to its name. -/
structure HashFunc where
  HashName : String

/-- The value `DH25519`. -/
def DH25519 : DHFunc := ⟨32, "25519"⟩

/-- The value `HashSHA256`. -/
def HashSHA256 : HashFunc := ⟨"SHA256"⟩

/-- The value `HashSHA512`. -/
def HashSHA512 : HashFunc := ⟨"SHA512"⟩

/-- The value `HashBLAKE2b`. -/
def HashBLAKE2b : HashFunc := ⟨"BLAKE2b"⟩

/-- The value `HashBLAKE2s`. -/
def HashBLAKE2s : HashFunc := ⟨"BLAKE2s"⟩

/-- The type `ciphersuite`. -/
structure ciphersuite where
  dh : DHFunc
  cipher : cipherFn
  hash : HashFunc
  name : ByteArray
  CName : String

/-- The function `NewCipherSuite`; `[]byte(s)` is the UTF-8 encoding of `s`. -/
def NewCipherSuite (dh : DHFunc) (c : cipherFn) (h : HashFunc) : ciphersuite :=
  { dh := dh
    cipher := c
    hash := h
    name := (dh.DHName ++ "_" ++ c.CipherName ++ "_" ++ h.HashName).toUTF8
    CName := c.CipherName }

/-- The method `Name` of a suite. -/
def ciphersuite.Name (s : ciphersuite) : ByteArray := s.name

/-- The method `CipherName` of a suite. -/
def ciphersuite.CipherName (s : ciphersuite) : String := s.CName

/-! ## cipher_suite.go: Encrypt and Decrypt -/

/-- The compliance branch of `Encrypt` from `make([]byte, 8096)` to
`output[0 : outputLength+tempLength]`.  The key pointer is the 32-byte key and
the IV pointer is `key[0:15]`.  The update is handed the address of `output[0]`
and writes `outputLength` bytes from there on: the slice `output` holds the
first 8096 of them, the rest, `evpEncryptOverrun`, lands in the memory behind
the slice.  The index expression `output[outputLength]` that follows panics
unless `outputLength < 8096`; the final call writes nothing, so `tempLength`
stays 0.  The value `none` says that the call returns no slice; it does not
say that the memory behind the slice is intact. -/
def evpEncrypt (E : Engine) (key inputArray : Bytes) : Option Bytes :=
  let written := E.EncryptUpdate key (key.take 15) inputArray
  let outputLength := written.length
  let tempLength := 0
  let output := (written ++ List.replicate (8096 - outputLength) 0).take 8096
  if outputLength < 8096 then some (output.take (outputLength + tempLength)) else none

/-- The compliance branch of `Decrypt`, with the same buffer handling as
`evpEncrypt`: output bytes beyond the first 8096 are written behind the
slice before the index expression panics. -/
def evpDecrypt (E : Engine) (key ctext : Bytes) : Option Bytes :=
  let written := E.DecryptUpdate key (key.take 15) ctext
  let outputLength := written.length
  let tempLength := 0
  let output := (written ++ List.replicate (8096 - outputLength) 0).take 8096
  if outputLength < 8096 then some (output.take (outputLength + tempLength)) else none

/-- The method `Encrypt` of `cipher_suite.go`.  The value `none` is a call that
ends in a run-time panic. -/
def aeadCipher.Encrypt (E : Engine) (c : aeadCipher) (out : Bytes) (n : Nat)
    (ad plaintext : Bytes) : Option Bytes :=
  if plaintext.length > 0 ∧ c.name = "AESGCMFIPS" then
    match evpEncrypt E c.Key plaintext with
    | some output => some (c.aead.Seal out (c.nonce n) output ad)
    | none => none
  else
    some (c.aead.Seal out (c.nonce n) plaintext ad)

/-- The method `Decrypt` of `cipher_suite.go`.  The result pairs the returned
slice with the returned error. -/
def aeadCipher.Decrypt (E : Engine) (c : aeadCipher) (out : Bytes) (n : Nat)
    (ad ciphertext : Bytes) : Option (Bytes × Option Error) :=
  let r := c.aead.Open out (c.nonce n) ciphertext ad
  let ctext := r.1
  let err := r.2
  if err ≠ none then some (ctext, err)
  else if ctext.length > 0 ∧ c.name = "AESGCMFIPS" then
    match evpDecrypt E c.Key ctext with
    | some output => some (output, none)
    | none => none
  else some (ctext, none)

/-! ## cipher_no_fips.go -/

namespace NoFips

/-- The registry entry `CipherAESGCMFIPS` of the `!fips` build. -/
def CipherAESGCMFIPS (P : Primitives) : cipherFn := ⟨cipherAESGCM P, "AESGCMFIPS"⟩

/-- The method `Encrypt` of the `!fips` build. -/
def Encrypt (c : aeadCipher) (out : Bytes) (n : Nat) (ad plaintext : Bytes) : Bytes :=
  let ciphertext := c.aead.Seal out (c.nonce n) plaintext ad
  ciphertext

/-- The method `Decrypt` of the `!fips` build. -/
def Decrypt (c : aeadCipher) (out : Bytes) (n : Nat) (ad ciphertext : Bytes) :
    Bytes × Option Error :=
  let r := c.aead.Open out (c.nonce n) ciphertext ad
  let plaintext := r.1
  let err := r.2
  if err ≠ none then (plaintext, err) else (plaintext, none)

end NoFips

/-! ## cipher_fips_windows.go -/

namespace Fips

/-- The registry entry `CipherAESGCMFIPS` of the `fips` build. -/
def CipherAESGCMFIPS (P : Primitives) : cipherFn := ⟨cipherAESGCMFIPS P, "AESGCM"⟩

/-- The function `EncryptPEC`: `&input[0]` panics on an empty input, and the
slice expression `outputArray[0:outputLength]` panics when the reported length
exceeds the 8096 bytes of the array.  The C call is handed the address of
`outputArray[0]` and no capacity: the array holds the first 8096 bytes it
writes, any further byte lands behind the array before the slice expression
is reached. -/
def EncryptPEC (X : PEC) (key input : Bytes) : Option Bytes :=
  if input.length = 0 then none
  else
    let written := X.EncryptText_GO key input
    let outputLength := written.length
    let outputArray := (written ++ List.replicate (8096 - outputLength) 0).take 8096
    if outputLength ≤ 8096 then some (outputArray.take outputLength) else none

/-- The function `DecryptPEC`, with the same array handling as `EncryptPEC`. -/
def DecryptPEC (X : PEC) (key input : Bytes) : Option Bytes :=
  if input.length = 0 then none
  else
    let written := X.DecryptText_GO key input
    let outputLength := written.length
    let outputArray := (written ++ List.replicate (8096 - outputLength) 0).take 8096
    if outputLength ≤ 8096 then some (outputArray.take outputLength) else none

/-- The method `Encrypt` of the `fips` build. -/
def Encrypt (X : PEC) (c : aeadCipher) (out : Bytes) (n : Nat) (ad plaintext : Bytes) :
    Option Bytes :=
  let ciphertext := c.aead.Seal out (c.nonce n) plaintext ad
  if ad.length > 0 then some ciphertext
  else if ciphertext.length > 0 ∧ c.name = "AESGCMFIPS" then
    EncryptPEC X c.Key ciphertext
  else some ciphertext

/-- The method `Decrypt` of the `fips` build. -/
def Decrypt (X : PEC) (c : aeadCipher) (out : Bytes) (n : Nat) (ad ciphertext : Bytes) :
    Option (Bytes × Option Error) :=
  let output :=
    if ad.length = 0 ∧ ciphertext.length > 0 ∧ c.name = "AESGCMFIPS" then
      DecryptPEC X c.Key ciphertext
    else some ciphertext
  match output with
  | none => none
  | some output =>
    let r := c.aead.Open out (c.nonce n) output ad
    let plaintext := r.1
    let err := r.2
    if err ≠ none then some (plaintext, err) else some (plaintext, none)

end Fips

/-! ## Predicates used in the statements -/

/-- The layout the nonce claims speak of: twelve bytes, the first four zero, the
last eight a byte string of value `n` under the reading `value`. -/
def NonceLayout (value : Bytes → Nat) (n : Nat) (N : Bytes) : Prop :=
  N.length = 12 ∧ N.take 4 = [0, 0, 0, 0] ∧ (N.drop 4).length = 8 ∧
    (∀ b ∈ N, b < 256) ∧ value (N.drop 4) = n

/-- In the `fips` build the scratch buffers suffice for the plaintext `p` under
empty associated data: the sealed message, when not empty, is at most 8096
bytes long and its PEC encryption is between 1 and 8096 bytes long. -/
def Fips.ScratchFits (X : PEC) (c : aeadCipher) (n : Nat) (p : Bytes) : Prop :=
  0 < (c.aead.Seal [] (c.nonce n) p []).length →
    (c.aead.Seal [] (c.nonce n) p []).length ≤ 8096 ∧
    0 < (X.EncryptText_GO c.Key (c.aead.Seal [] (c.nonce n) p [])).length ∧
    (X.EncryptText_GO c.Key (c.aead.Seal [] (c.nonce n) p [])).length ≤ 8096

/-- Encrypting `p` with an empty `out` returns a ciphertext that decrypts, with
an empty `out`, to `p` and a nil error (`cipher_suite.go`). -/
def RoundTrip (E : Engine) (c : aeadCipher) (n : Nat) (ad p : Bytes) : Prop :=
  ∃ ct, aeadCipher.Encrypt E c [] n ad p = some ct ∧
    aeadCipher.Decrypt E c [] n ad ct = some (p, none)

/-- The round trip of the `fips` build. -/
def Fips.RoundTrip (X : PEC) (c : aeadCipher) (n : Nat) (ad p : Bytes) : Prop :=
  ∃ ct, Fips.Encrypt X c [] n ad p = some ct ∧ Fips.Decrypt X c [] n ad ct = some (p, none)

/-! ## Concrete instances of the library primitives

Small lawful instances of the abstract primitives, used to evaluate the
definitions above on concrete inputs. -/

/-- The one-byte tag of the sample AEAD: the sum of all key, nonce, associated
data and plaintext bytes, modulo 256. -/
def sampleTag (key nonce ad plaintext : Bytes) : Nat :=
  (key.sum + nonce.sum + ad.sum + plaintext.sum) % 256

/-- A sample AEAD: the sealed message is the tag followed by the plaintext; it
opens only when the tag matches. -/
def sampleAEAD (key : Bytes) : AEAD where
  sealed := fun nonce plaintext ad => sampleTag key nonce ad plaintext :: plaintext
  opened := fun nonce ciphertext ad =>
    match ciphertext with
    | [] => Except.error "message authentication failed"
    | t :: body =>
      if t = sampleTag key nonce ad body then Except.ok body
      else Except.error "message authentication failed"
  opened_sealed := by
    intro nonce plaintext ad
    simp

/-- Sample primitives: both constructors give the sample AEAD. -/
def samplePrimitives : Primitives := ⟨sampleAEAD, sampleAEAD⟩

/-- The mask of the sample engine, taken from the first key byte. -/
def sampleMask (key : Bytes) : Nat := (key.headD 0) % 256 ||| 1

/-- A sample EVP engine: every byte is combined by exclusive or with the
mask. -/
def sampleEngine : Engine where
  EncryptUpdate := fun key _ input => input.map (fun b => b ^^^ sampleMask key)
  DecryptUpdate := fun key _ input => input.map (fun b => b ^^^ sampleMask key)
  decrypt_encrypt := by
    intro key iv input
    simp [List.map_map, Function.comp_def, Nat.xor_assoc]
  encrypt_length := by
    intro key iv input
    simp
  decrypt_length := by
    intro key iv input
    simp

/-- A sample PEC engine: encryption puts a marker byte in front, decryption
removes the first byte. -/
def samplePEC : PEC where
  EncryptText_GO := fun _ input => 80 :: input
  DecryptText_GO := fun _ input => input.tail
  decrypt_encrypt := by
    intro key input
    rfl

/-- A sample 32-byte key. -/
def sampleKey : Bytes := List.range 32

/-! # Theorems -/

/-! ## Nonce layout -/

/-- The big-endian bytes of a 64-bit value read back as that value. -/
theorem beValue_PutUint64 (n : Nat) (h : n < 2 ^ 64) : beValue (BigEndian_PutUint64 n) = n := by
  simp only [beValue, BigEndian_PutUint64, List.foldl, Nat.shiftRight_eq_div_pow]
  norm_num at h ⊢
  omega

/-- The little-endian bytes of a 64-bit value read back as that value. -/
theorem leValue_PutUint64 (n : Nat) (h : n < 2 ^ 64) :
    leValue (LittleEndian_PutUint64 n) = n := by
  simp only [leValue, LittleEndian_PutUint64, List.foldr, Nat.shiftRight_eq_div_pow]
  norm_num at h ⊢
  omega

/-- Every byte stored by the big-endian writer is below 256. -/
theorem bigEndian_bytes_lt (n : Nat) : ∀ b ∈ BigEndian_PutUint64 n, b < 256 := by
  intro b hb
  simp only [BigEndian_PutUint64, List.mem_cons, List.mem_singleton, List.not_mem_nil,
    or_false] at hb
  rcases hb with h | h | h | h | h | h | h | h <;> subst h <;> exact Nat.mod_lt _ (by decide)

/-- Every byte stored by the little-endian writer is below 256. -/
theorem littleEndian_bytes_lt (n : Nat) : ∀ b ∈ LittleEndian_PutUint64 n, b < 256 := by
  intro b hb
  simp only [LittleEndian_PutUint64, List.mem_cons, List.mem_singleton, List.not_mem_nil,
    or_false] at hb
  rcases hb with h | h | h | h | h | h | h | h <;> subst h <;> exact Nat.mod_lt _ (by decide)

/-- The big-endian nonce has the nonce layout. -/
theorem nonceLayout_be (n : Nat) (h : n < 2 ^ 64) :
    NonceLayout beValue n ((List.replicate 12 0).take 4 ++ BigEndian_PutUint64 n) := by
  have hz : (List.replicate 12 0).take 4 = ([0, 0, 0, 0] : Bytes) := by decide
  rw [hz]
  refine ⟨by simp [BigEndian_PutUint64], by simp, by simp [BigEndian_PutUint64], ?_, ?_⟩
  · intro b hb
    rcases List.mem_append.mp hb with hb | hb
    · have : b = 0 := by simpa using hb
      omega
    · exact bigEndian_bytes_lt n b hb
  · have : ([0, 0, 0, 0] ++ BigEndian_PutUint64 n).drop 4 = BigEndian_PutUint64 n := by
      simp
    rw [this]
    exact beValue_PutUint64 n h

/-- The little-endian nonce has the nonce layout. -/
theorem nonceLayout_le (n : Nat) (h : n < 2 ^ 64) :
    NonceLayout leValue n ((List.replicate 12 0).take 4 ++ LittleEndian_PutUint64 n) := by
  have hz : (List.replicate 12 0).take 4 = ([0, 0, 0, 0] : Bytes) := by decide
  rw [hz]
  refine ⟨by simp [LittleEndian_PutUint64], by simp, by simp [LittleEndian_PutUint64], ?_, ?_⟩
  · intro b hb
    rcases List.mem_append.mp hb with hb | hb
    · have : b = 0 := by simpa using hb
      omega
    · exact littleEndian_bytes_lt n b hb
  · have : ([0, 0, 0, 0] ++ LittleEndian_PutUint64 n).drop 4 = LittleEndian_PutUint64 n := by
      simp
    rw [this]
    exact leValue_PutUint64 n h

/-- C2. For a sequence number `n` below `2 ^ 64` the nonce of a cipher built by
`cipherAESGCM` or `cipherAESGCMFIPS` has twelve bytes, the first four zero and
the last eight the big-endian bytes of `n`; the nonce of a cipher built by
`cipherChaChaPoly` has the same shape with the last eight bytes little-endian;
none of the three depends on the key or on the AEAD library. -/
theorem nonce_layout (P : Primitives) (k : Bytes) (n : Nat) (h : n < 2 ^ 64) :
    NonceLayout beValue n ((cipherAESGCM P k).nonce n) ∧
    NonceLayout beValue n ((cipherAESGCMFIPS P k).nonce n) ∧
    NonceLayout leValue n ((cipherChaChaPoly P k).nonce n) ∧
    (∀ (Q : Primitives) (j : Bytes),
      (cipherAESGCM Q j).nonce n = (cipherAESGCM P k).nonce n ∧
      (cipherAESGCMFIPS Q j).nonce n = (cipherAESGCMFIPS P k).nonce n ∧
      (cipherChaChaPoly Q j).nonce n = (cipherChaChaPoly P k).nonce n) :=
  ⟨nonceLayout_be n h, nonceLayout_be n h, nonceLayout_le n h, fun _ _ => ⟨rfl, rfl, rfl⟩⟩

/-- Witness of C2 at the sequence number `0x0102030405060708`. -/
theorem nonce_layout_witness :
    (cipherAESGCM samplePrimitives sampleKey).nonce 72623859790382856 =
      [0, 0, 0, 0, 1, 2, 3, 4, 5, 6, 7, 8] ∧
    (cipherChaChaPoly samplePrimitives sampleKey).nonce 72623859790382856 =
      [0, 0, 0, 0, 8, 7, 6, 5, 4, 3, 2, 1] ∧
    NonceLayout beValue 72623859790382856
      ((cipherAESGCM samplePrimitives sampleKey).nonce 72623859790382856) ∧
    NonceLayout leValue 72623859790382856
      ((cipherChaChaPoly samplePrimitives sampleKey).nonce 72623859790382856) :=
  ⟨by decide, by decide,
    (nonce_layout samplePrimitives sampleKey 72623859790382856 (by norm_num)).1,
    (nonce_layout samplePrimitives sampleKey 72623859790382856 (by norm_num)).2.2.1⟩

/-- C3. For each of the three cipher constructors and every key, two different
sequence numbers below `2 ^ 64` give different nonces. -/
theorem nonce_injective (P : Primitives) (k : Bytes) (n1 n2 : Nat)
    (h1 : n1 < 2 ^ 64) (h2 : n2 < 2 ^ 64) (hne : n1 ≠ n2) :
    (cipherAESGCM P k).nonce n1 ≠ (cipherAESGCM P k).nonce n2 ∧
    (cipherAESGCMFIPS P k).nonce n1 ≠ (cipherAESGCMFIPS P k).nonce n2 ∧
    (cipherChaChaPoly P k).nonce n1 ≠ (cipherChaChaPoly P k).nonce n2 := by
  refine ⟨?_, ?_, ?_⟩
  · intro heq
    have e1 := (nonceLayout_be n1 h1).2.2.2.2
    have e2 := (nonceLayout_be n2 h2).2.2.2.2
    have heq2 : (List.replicate 12 0).take 4 ++ BigEndian_PutUint64 n1 =
        (List.replicate 12 0).take 4 ++ BigEndian_PutUint64 n2 := heq
    rw [heq2] at e1
    exact hne (e1.symm.trans e2)
  · intro heq
    have e1 := (nonceLayout_be n1 h1).2.2.2.2
    have e2 := (nonceLayout_be n2 h2).2.2.2.2
    have heq2 : (List.replicate 12 0).take 4 ++ BigEndian_PutUint64 n1 =
        (List.replicate 12 0).take 4 ++ BigEndian_PutUint64 n2 := heq
    rw [heq2] at e1
    exact hne (e1.symm.trans e2)
  · intro heq
    have e1 := (nonceLayout_le n1 h1).2.2.2.2
    have e2 := (nonceLayout_le n2 h2).2.2.2.2
    have heq2 : (List.replicate 12 0).take 4 ++ LittleEndian_PutUint64 n1 =
        (List.replicate 12 0).take 4 ++ LittleEndian_PutUint64 n2 := heq
    rw [heq2] at e1
    exact hne (e1.symm.trans e2)

/-- Witness of C3 at the sequence numbers 1 and 256, whose nonces differ in
two bytes. -/
theorem nonce_injective_witness :
    (cipherAESGCM samplePrimitives sampleKey).nonce 1 = [0, 0, 0, 0, 0, 0, 0, 0, 0, 0, 0, 1] ∧
    (cipherAESGCM samplePrimitives sampleKey).nonce 256 = [0, 0, 0, 0, 0, 0, 0, 0, 0, 0, 1, 0] ∧
    (cipherAESGCM samplePrimitives sampleKey).nonce 1 ≠
      (cipherAESGCM samplePrimitives sampleKey).nonce 256 ∧
    (cipherChaChaPoly samplePrimitives sampleKey).nonce 1 ≠
      (cipherChaChaPoly samplePrimitives sampleKey).nonce 256 :=
  ⟨by decide, by decide,
    (nonce_injective samplePrimitives sampleKey 1 256 (by norm_num) (by norm_num)
      (by decide)).1,
    (nonce_injective samplePrimitives sampleKey 1 256 (by norm_num) (by norm_num)
      (by decide)).2.2⟩

/-! ## Suite composition and names -/

/-- C4. The name of a composed suite is the UTF-8 encoding of the DH name, an
underscore, the cipher name, an underscore and the hash name; the cipher name
of the suite is that of its cipher function; and the suite of `DH25519`,
`CipherAESGCM` and `HashSHA256` is named `25519_AESGCM_SHA256`. -/
theorem suite_name (P : Primitives) (dh : DHFunc) (c : cipherFn) (h : HashFunc) :
    (NewCipherSuite dh c h).Name =
      (dh.DHName ++ "_" ++ c.CipherName ++ "_" ++ h.HashName).toUTF8 ∧
    (NewCipherSuite dh c h).CipherName = c.CipherName ∧
    DH25519.DHName ++ "_" ++ (CipherAESGCM P).CipherName ++ "_" ++ HashSHA256.HashName =
      "25519_AESGCM_SHA256" ∧
    (NewCipherSuite DH25519 (CipherAESGCM P) HashSHA256).Name = "25519_AESGCM_SHA256".toUTF8 :=
  ⟨rfl, rfl, rfl, rfl⟩

/-- Counterexample to C9: in the `!fips` build the registry entry
`CipherAESGCMFIPS` is not named `AESGCM` and the ciphers it builds are not
named `AESGCMFIPS`. -/
theorem nofips_entry_names_differ :
    (NoFips.CipherAESGCMFIPS samplePrimitives).CipherName ≠ "AESGCM" ∧
    ((NoFips.CipherAESGCMFIPS samplePrimitives).Cipher sampleKey).Name ≠ "AESGCMFIPS" :=
  ⟨by decide, by decide⟩

/-- C9, amended. In `cipher_suite.go` and in the `fips` build the registry entry
`CipherAESGCMFIPS` has the negotiation name `AESGCM`, so a suite composed
with it has the name of the suite composed with `CipherAESGCM`, and every
cipher it builds has the internal name `AESGCMFIPS`; ciphers built by
`CipherAESGCM` are named `AESGCM` and those built by `CipherChaChaPoly` are
named `ChaChaPoly`.  In the `!fips` build the entry `CipherAESGCMFIPS` has the
negotiation name `AESGCMFIPS` and builds ciphers named `AESGCM`. -/
theorem compliance_names (P : Primitives) (k : Bytes) (dh : DHFunc) (h : HashFunc) :
    ((CipherAESGCMFIPS P).CipherName = "AESGCM" ∧
      (NewCipherSuite dh (CipherAESGCMFIPS P) h).Name =
        (NewCipherSuite dh (CipherAESGCM P) h).Name ∧
      ((CipherAESGCMFIPS P).Cipher k).Name = "AESGCMFIPS") ∧
    ((Fips.CipherAESGCMFIPS P).CipherName = "AESGCM" ∧
      (NewCipherSuite dh (Fips.CipherAESGCMFIPS P) h).Name =
        (NewCipherSuite dh (CipherAESGCM P) h).Name ∧
      ((Fips.CipherAESGCMFIPS P).Cipher k).Name = "AESGCMFIPS") ∧
    ((CipherAESGCM P).Cipher k).Name = "AESGCM" ∧
    ((CipherChaChaPoly P).Cipher k).Name = "ChaChaPoly" ∧
    ((NoFips.CipherAESGCMFIPS P).CipherName = "AESGCMFIPS" ∧
      ((NoFips.CipherAESGCMFIPS P).Cipher k).Name = "AESGCM") :=
  ⟨⟨rfl, rfl, rfl⟩, ⟨rfl, rfl, rfl⟩, rfl, rfl, rfl, rfl⟩

/-! ## The scratch buffer and the library laws -/

/-- Opening a message sealed onto the empty slice appends the plaintext. -/
theorem Open_Seal (a : AEAD) (dst nonce x ad : Bytes) :
    a.Open dst nonce (a.Seal [] nonce x ad) ad = (dst ++ x, none) := by
  simp [AEAD.Open, AEAD.Seal, a.opened_sealed]

/-- The result of `Open` on an accepted ciphertext. -/
theorem Open_of_ok (a : AEAD) (dst nonce ct ad x : Bytes)
    (h : a.opened nonce ct ad = Except.ok x) : a.Open dst nonce ct ad = (dst ++ x, none) := by
  simp [AEAD.Open, h]

/-- The first bytes of the scratch slice are the bytes written to it. -/
theorem scratch_take (w : Bytes) (h : w.length ≤ 8096) :
    ((w ++ List.replicate (8096 - w.length) 0).take 8096).take w.length = w := by
  rw [List.take_take, Nat.min_eq_left h, List.take_left']
  rfl

/-- The EVP encryption of an input shorter than the scratch buffer. -/
theorem evpEncrypt_of_lt (E : Engine) (key x : Bytes) (h : x.length < 8096) :
    evpEncrypt E key x = some (E.EncryptUpdate key (key.take 15) x) := by
  have hw : (E.EncryptUpdate key (key.take 15) x).length < 8096 := by
    rw [E.encrypt_length]
    exact h
  simp only [evpEncrypt, if_pos hw, Nat.add_zero]
  rw [scratch_take _ (Nat.le_of_lt hw)]

/-- The EVP encryption of an input that fills the scratch buffer panics. -/
theorem evpEncrypt_of_ge (E : Engine) (key x : Bytes) (h : 8096 ≤ x.length) :
    evpEncrypt E key x = none := by
  simp [evpEncrypt, E.encrypt_length, h]

/-- The EVP decryption of an input shorter than the scratch buffer. -/
theorem evpDecrypt_of_lt (E : Engine) (key x : Bytes) (h : x.length < 8096) :
    evpDecrypt E key x = some (E.DecryptUpdate key (key.take 15) x) := by
  have hw : (E.DecryptUpdate key (key.take 15) x).length < 8096 := by
    rw [E.decrypt_length]
    exact h
  simp only [evpDecrypt, if_pos hw, Nat.add_zero]
  rw [scratch_take _ (Nat.le_of_lt hw)]

/-- The compliance branch of `Encrypt` on a plaintext that fits. -/
theorem Encrypt_compliance (E : Engine) (c : aeadCipher) (out : Bytes) (n : Nat)
    (ad p : Bytes) (hname : c.name = "AESGCMFIPS") (hpos : 0 < p.length)
    (hlt : p.length < 8096) :
    aeadCipher.Encrypt E c out n ad p =
      some (c.aead.Seal out (c.nonce n) (E.EncryptUpdate c.Key (c.Key.take 15) p) ad) := by
  simp [aeadCipher.Encrypt, hname, hpos, evpEncrypt_of_lt E c.Key p hlt]

/-- The compliance branch of `Encrypt` on a plaintext of 8096 bytes or more. -/
theorem Encrypt_overflow (E : Engine) (c : aeadCipher) (out : Bytes) (n : Nat)
    (ad p : Bytes) (hname : c.name = "AESGCMFIPS") (hge : 8096 ≤ p.length) :
    aeadCipher.Encrypt E c out n ad p = none := by
  have hpos : 0 < p.length := by omega
  simp [aeadCipher.Encrypt, hname, hpos, evpEncrypt_of_ge E c.Key p hge]

/-- The plain branch of `Encrypt`. -/
theorem Encrypt_plain (E : Engine) (c : aeadCipher) (out : Bytes) (n : Nat)
    (ad p : Bytes) (h : ¬ (0 < p.length ∧ c.name = "AESGCMFIPS")) :
    aeadCipher.Encrypt E c out n ad p = some (c.aead.Seal out (c.nonce n) p ad) := by
  simp only [aeadCipher.Encrypt, gt_iff_lt, if_neg h]

/-- What `Decrypt` returns outside the compliance branch. -/
theorem Decrypt_plain (E : Engine) (c : aeadCipher) (out : Bytes) (n : Nat)
    (ad ct x : Bytes) (h : c.aead.opened (c.nonce n) ct ad = Except.ok x)
    (hc : ¬ (0 < (out ++ x).length ∧ c.name = "AESGCMFIPS")) :
    aeadCipher.Decrypt E c out n ad ct = some (out ++ x, none) := by
  simp only [aeadCipher.Decrypt, Open_of_ok _ _ _ _ _ x h, gt_iff_lt, if_neg hc]
  simp

/-- What `Decrypt` returns in the compliance branch when the buffer fits. -/
theorem Decrypt_compliance (E : Engine) (c : aeadCipher) (out : Bytes) (n : Nat)
    (ad ct x : Bytes) (h : c.aead.opened (c.nonce n) ct ad = Except.ok x)
    (hname : c.name = "AESGCMFIPS") (hpos : 0 < (out ++ x).length)
    (hlt : (out ++ x).length < 8096) :
    aeadCipher.Decrypt E c out n ad ct =
      some (E.DecryptUpdate c.Key (c.Key.take 15) (out ++ x), none) := by
  have hc : 0 < (out ++ x).length ∧ c.name = "AESGCMFIPS" := ⟨hpos, hname⟩
  simp only [aeadCipher.Decrypt, Open_of_ok _ _ _ _ _ x h, gt_iff_lt, if_pos hc,
    evpDecrypt_of_lt E c.Key (out ++ x) hlt]
  simp

/-- Round trip through `Encrypt` and `Decrypt` of `cipher_suite.go` with an empty
`out`, for any keyed cipher whose plaintext fits the scratch buffer when the
name is the compliance name. -/
theorem suite_roundtrip (E : Engine) (c : aeadCipher) (n : Nat) (ad p : Bytes)
    (hfit : c.name = "AESGCMFIPS" → p.length < 8096) :
    ∃ ct, aeadCipher.Encrypt E c [] n ad p = some ct ∧
      aeadCipher.Decrypt E c [] n ad ct = some (p, none) := by
  by_cases hc : 0 < p.length ∧ c.name = "AESGCMFIPS"
  · obtain ⟨hpos, hname⟩ := hc
    have hlt := hfit hname
    refine ⟨_, Encrypt_compliance E c [] n ad p hname hpos hlt, ?_⟩
    have hop : c.aead.opened (c.nonce n)
        (c.aead.Seal [] (c.nonce n) (E.EncryptUpdate c.Key (c.Key.take 15) p) ad) ad =
        Except.ok (E.EncryptUpdate c.Key (c.Key.take 15) p) := by
      simp [AEAD.Seal, c.aead.opened_sealed]
    have hlen : ([] ++ E.EncryptUpdate c.Key (c.Key.take 15) p).length = p.length := by
      simp [E.encrypt_length]
    rw [Decrypt_compliance E c [] n ad _ _ hop hname (by omega) (by omega)]
    simp [E.decrypt_encrypt]
  · refine ⟨_, Encrypt_plain E c [] n ad p hc, ?_⟩
    have hop : c.aead.opened (c.nonce n) (c.aead.Seal [] (c.nonce n) p ad) ad =
        Except.ok p := by
      simp [AEAD.Seal, c.aead.opened_sealed]
    rw [Decrypt_plain E c [] n ad _ p hop (by simpa using hc)]
    simp

/-- Both return statements after `Open` return what `Open` returned. -/
theorem returned_pair (r : Bytes × Option Error) :
    (if r.2 ≠ none then some (r.1, r.2) else some (r.1, none)) = some r := by
  by_cases h : r.2 = none
  · rw [if_neg (not_not.mpr h)]
    exact congrArg some (Prod.ext rfl h.symm)
  · rw [if_pos h]

/-- The ciphers of `CipherAESGCM` do not carry the compliance name. -/
theorem name_AESGCM (P : Primitives) (k : Bytes) :
    ((CipherAESGCM P).Cipher k).name ≠ "AESGCMFIPS" := by
  show "AESGCM" ≠ "AESGCMFIPS"
  decide

/-- The ciphers of `CipherChaChaPoly` do not carry the compliance name. -/
theorem name_ChaChaPoly (P : Primitives) (k : Bytes) :
    ((CipherChaChaPoly P).Cipher k).name ≠ "AESGCMFIPS" := by
  show "ChaChaPoly" ≠ "AESGCMFIPS"
  decide

/-- The result of `EncryptPEC` when the output fits the array. -/
theorem fips_EncryptPEC_of_le (X : PEC) (key input : Bytes) (hpos : 0 < input.length)
    (hle : (X.EncryptText_GO key input).length ≤ 8096) :
    Fips.EncryptPEC X key input = some (X.EncryptText_GO key input) := by
  have h0 : ¬ input.length = 0 := by omega
  simp only [Fips.EncryptPEC, if_neg h0, if_pos hle]
  rw [scratch_take _ hle]

/-- The result of `DecryptPEC` when the output fits the array. -/
theorem fips_DecryptPEC_of_le (X : PEC) (key input : Bytes) (hpos : 0 < input.length)
    (hle : (X.DecryptText_GO key input).length ≤ 8096) :
    Fips.DecryptPEC X key input = some (X.DecryptText_GO key input) := by
  have h0 : ¬ input.length = 0 := by omega
  simp only [Fips.DecryptPEC, if_neg h0, if_pos hle]
  rw [scratch_take _ hle]

/-- With associated data the `fips` build returns the plain seal. -/
theorem fips_Encrypt_of_ad (X : PEC) (c : aeadCipher) (out : Bytes) (n : Nat)
    (ad p : Bytes) (had : ad ≠ []) :
    Fips.Encrypt X c out n ad p = some (c.aead.Seal out (c.nonce n) p ad) := by
  have h : 0 < ad.length := List.length_pos.mpr had
  simp [Fips.Encrypt, h]

/-- The `fips` build returns the plain seal outside the compliance branch. -/
theorem fips_Encrypt_plain (X : PEC) (c : aeadCipher) (out : Bytes) (n : Nat)
    (ad p : Bytes)
    (h : ¬ (0 < (c.aead.Seal out (c.nonce n) p ad).length ∧ c.name = "AESGCMFIPS")) :
    Fips.Encrypt X c out n ad p = some (c.aead.Seal out (c.nonce n) p ad) := by
  simp only [Fips.Encrypt, gt_iff_lt, if_neg h]
  split <;> rfl

/-- The compliance branch of `Encrypt` in the `fips` build. -/
theorem fips_Encrypt_compliance (X : PEC) (c : aeadCipher) (out : Bytes) (n : Nat)
    (p : Bytes) (hname : c.name = "AESGCMFIPS")
    (hpos : 0 < (c.aead.Seal out (c.nonce n) p []).length) :
    Fips.Encrypt X c out n [] p =
      Fips.EncryptPEC X c.Key (c.aead.Seal out (c.nonce n) p []) := by
  have hc : 0 < (c.aead.Seal out (c.nonce n) p []).length ∧ c.name = "AESGCMFIPS" :=
    ⟨hpos, hname⟩
  simp only [Fips.Encrypt, gt_iff_lt, if_pos hc]
  simp

/-- The method `Decrypt` of the `fips` build outside the compliance branch. -/
theorem fips_Decrypt_plain (X : PEC) (c : aeadCipher) (out : Bytes) (n : Nat)
    (ad ct : Bytes)
    (h : ¬ (ad.length = 0 ∧ 0 < ct.length ∧ c.name = "AESGCMFIPS")) :
    Fips.Decrypt X c out n ad ct = some (c.aead.Open out (c.nonce n) ct ad) := by
  simp only [Fips.Decrypt, gt_iff_lt, if_neg h]
  exact returned_pair _

/-- The compliance branch of `Decrypt` in the `fips` build. -/
theorem fips_Decrypt_compliance (X : PEC) (c : aeadCipher) (out : Bytes) (n : Nat)
    (ct : Bytes) (hname : c.name = "AESGCMFIPS") (hpos : 0 < ct.length)
    (hle : (X.DecryptText_GO c.Key ct).length ≤ 8096) :
    Fips.Decrypt X c out n [] ct =
      some (c.aead.Open out (c.nonce n) (X.DecryptText_GO c.Key ct) []) := by
  have hc : ([] : Bytes).length = 0 ∧ 0 < ct.length ∧ c.name = "AESGCMFIPS" :=
    ⟨rfl, hpos, hname⟩
  simp only [Fips.Decrypt, gt_iff_lt, if_pos hc, fips_DecryptPEC_of_le X c.Key ct hpos hle]
  exact returned_pair _

/-- Round trip through `Encrypt` and `Decrypt` of the `fips` build with an empty `out`. -/
theorem fips_roundtrip (X : PEC) (c : aeadCipher) (n : Nat) (ad p : Bytes)
    (hfit : c.name = "AESGCMFIPS" → ad = [] → Fips.ScratchFits X c n p) :
    Fips.RoundTrip X c n ad p := by
  unfold Fips.RoundTrip
  by_cases had : ad = []
  · subst had
    by_cases hc : 0 < (c.aead.Seal [] (c.nonce n) p []).length ∧ c.name = "AESGCMFIPS"
    · obtain ⟨hpos, hname⟩ := hc
      obtain ⟨hs, hpe, hle⟩ := hfit hname rfl hpos
      refine ⟨X.EncryptText_GO c.Key (c.aead.Seal [] (c.nonce n) p []), ?_, ?_⟩
      · rw [fips_Encrypt_compliance X c [] n p hname hpos]
        exact fips_EncryptPEC_of_le X c.Key _ hpos hle
      · rw [fips_Decrypt_compliance X c [] n _ hname hpe
          (by rw [X.decrypt_encrypt]; exact hs)]
        rw [X.decrypt_encrypt, Open_Seal]
        simp
    · refine ⟨_, fips_Encrypt_plain X c [] n [] p hc, ?_⟩
      rw [fips_Decrypt_plain X c [] n [] _ (fun h => hc ⟨h.2.1, h.2.2⟩), Open_Seal]
      simp
  · refine ⟨_, fips_Encrypt_of_ad X c [] n ad p had, ?_⟩
    have hpos : 0 < ad.length := List.length_pos.mpr had
    rw [fips_Decrypt_plain X c [] n ad _ (fun h => by omega), Open_Seal]
    simp

/-- Round trip through `Encrypt` and `Decrypt` of the `!fips` build with an empty `out`. -/
theorem nofips_roundtrip (c : aeadCipher) (n : Nat) (ad p : Bytes) :
    NoFips.Decrypt c [] n ad (NoFips.Encrypt c [] n ad p) = (p, none) := by
  simp [NoFips.Decrypt, NoFips.Encrypt, Open_Seal]

/-- Counterexample to C1: under the compliance identity `Encrypt` of
`cipher_suite.go` returns nothing for a plaintext of 8096 zero bytes, so no
round trip exists for it. -/
theorem compliance_capacity_counterexample :
    aeadCipher.Encrypt sampleEngine ((CipherAESGCMFIPS samplePrimitives).Cipher sampleKey)
      [] 0 [] (List.replicate 8096 0) = none ∧
    ¬ RoundTrip sampleEngine ((CipherAESGCMFIPS samplePrimitives).Cipher sampleKey)
      0 [] (List.replicate 8096 0) := by
  have h : aeadCipher.Encrypt sampleEngine
      ((CipherAESGCMFIPS samplePrimitives).Cipher sampleKey) [] 0 []
      (List.replicate 8096 0) = none :=
    Encrypt_overflow sampleEngine _ [] 0 [] _ rfl (by rw [List.length_replicate])
  refine ⟨h, ?_⟩
  rintro ⟨ct, hct, -⟩
  rw [h] at hct
  exact Option.noConfusion hct

/-- C1, amended. With an empty `out`, `Decrypt` applied to the result of
`Encrypt` returns the plaintext and a nil error: in `cipher_suite.go` for
`AESGCM` and `ChaChaPoly` on every plaintext and for `AESGCMFIPS` on every
plaintext shorter than 8096 bytes; in the `!fips` build for every registry
entry and plaintext; in the `fips` build for `AESGCM` and `ChaChaPoly` on every
plaintext and for `AESGCMFIPS` whenever the associated data is not empty or
the scratch buffers suffice. -/
theorem encrypt_decrypt_roundtrip (E : Engine) (X : PEC) (P : Primitives) (k : Bytes) (n : Nat)
    (ad p : Bytes) :
    (RoundTrip E ((CipherAESGCM P).Cipher k) n ad p ∧
      RoundTrip E ((CipherChaChaPoly P).Cipher k) n ad p ∧
      (p.length < 8096 → RoundTrip E ((CipherAESGCMFIPS P).Cipher k) n ad p)) ∧
    (∀ f ∈ [CipherAESGCM P, CipherChaChaPoly P, NoFips.CipherAESGCMFIPS P],
      NoFips.Decrypt (f.Cipher k) [] n ad (NoFips.Encrypt (f.Cipher k) [] n ad p) =
        (p, none)) ∧
    (Fips.RoundTrip X ((CipherAESGCM P).Cipher k) n ad p ∧
      Fips.RoundTrip X ((CipherChaChaPoly P).Cipher k) n ad p ∧
      ((ad = [] → Fips.ScratchFits X ((Fips.CipherAESGCMFIPS P).Cipher k) n p) →
        Fips.RoundTrip X ((Fips.CipherAESGCMFIPS P).Cipher k) n ad p)) := by
  refine ⟨⟨?_, ?_, ?_⟩, ?_, ⟨?_, ?_, ?_⟩⟩
  · exact suite_roundtrip E _ n ad p (fun h => absurd h (name_AESGCM P k))
  · exact suite_roundtrip E _ n ad p (fun h => absurd h (name_ChaChaPoly P k))
  · intro hlt
    exact suite_roundtrip E _ n ad p (fun _ => hlt)
  · intro f _
    exact nofips_roundtrip _ n ad p
  · exact fips_roundtrip X _ n ad p (fun h => absurd h (name_AESGCM P k))
  · exact fips_roundtrip X _ n ad p (fun h => absurd h (name_ChaChaPoly P k))
  · intro hfit
    exact fips_roundtrip X _ n ad p (fun _ => hfit)

/-- Witness of C1, amended: the compliance cipher on the plaintext `[1, 2, 3]`
in `cipher_suite.go` and in the `fips` build. -/
theorem encrypt_decrypt_roundtrip_witness :
    aeadCipher.Encrypt sampleEngine ((CipherAESGCMFIPS samplePrimitives).Cipher sampleKey)
      [] 5 [] [1, 2, 3] = some [250, 0, 3, 2] ∧
    aeadCipher.Decrypt sampleEngine ((CipherAESGCMFIPS samplePrimitives).Cipher sampleKey)
      [] 5 [] [250, 0, 3, 2] = some ([1, 2, 3], none) ∧
    RoundTrip sampleEngine ((CipherAESGCMFIPS samplePrimitives).Cipher sampleKey)
      5 [] [1, 2, 3] ∧
    Fips.RoundTrip samplePEC ((Fips.CipherAESGCMFIPS samplePrimitives).Cipher sampleKey)
      5 [] [1, 2, 3] :=
  ⟨by decide, by decide,
    (encrypt_decrypt_roundtrip sampleEngine samplePEC samplePrimitives sampleKey 5 [] [1, 2, 3]).1.2.2
      (by decide),
    (encrypt_decrypt_roundtrip sampleEngine samplePEC samplePrimitives sampleKey 5 [] [1, 2, 3]).2.2.2.2
      (fun _ _ => by decide)⟩

/-! ## Key-material framing, scratch capacity and pipeline order -/

/-- Counterexample to C5: in `cipher_suite.go` the compliance cipher, given the
non-empty associated data `[7]` and the plaintext `[1, 2]`, seals the engine
output `[0, 3]`; the result is not the plain seal of `[1, 2]`, and opening it
yields `[0, 3]`. -/
theorem suite_applies_pass_with_ad :
    aeadCipher.Encrypt sampleEngine ((CipherAESGCMFIPS samplePrimitives).Cipher sampleKey)
      [] 0 [7] [1, 2] = some [250, 0, 3] ∧
    ((CipherAESGCMFIPS samplePrimitives).Cipher sampleKey).aead.Seal []
      (((CipherAESGCMFIPS samplePrimitives).Cipher sampleKey).nonce 0) [1, 2] [7] =
        [250, 1, 2] ∧
    ((CipherAESGCMFIPS samplePrimitives).Cipher sampleKey).aead.Open []
      (((CipherAESGCMFIPS samplePrimitives).Cipher sampleKey).nonce 0) [250, 0, 3] [7] =
        ([0, 3], none) :=
  ⟨by decide, by decide, by decide⟩

/-- C5, amended. In the `fips` build a cipher with the compliance identity,
given non-empty associated data, returns the plain seal of the plaintext
appended to `out`, and opening the sealed part yields the plaintext.  In
`cipher_suite.go` the associated data plays no part: a non-empty plaintext
shorter than 8096 bytes is passed through the engine before it is sealed, and
only the empty plaintext is sealed as it is. -/
theorem key_material_framing (E : Engine) (X : PEC) (c : aeadCipher) (out : Bytes) (n : Nat)
    (ad p : Bytes) (hname : c.Name = "AESGCMFIPS") (had : ad ≠ []) :
    (Fips.Encrypt X c out n ad p = some (c.aead.Seal out (c.nonce n) p ad) ∧
      c.aead.Open [] (c.nonce n) ((c.aead.Seal out (c.nonce n) p ad).drop out.length) ad =
        (p, none)) ∧
    (0 < p.length → p.length < 8096 →
      aeadCipher.Encrypt E c out n ad p =
        some (c.aead.Seal out (c.nonce n) (E.EncryptUpdate c.Key (c.Key.take 15) p) ad)) ∧
    aeadCipher.Encrypt E c out n ad [] = some (c.aead.Seal out (c.nonce n) [] ad) := by
  refine ⟨⟨fips_Encrypt_of_ad X c out n ad p had, ?_⟩, ?_, ?_⟩
  · have h : (c.aead.Seal out (c.nonce n) p ad).drop out.length =
        c.aead.Seal [] (c.nonce n) p ad := by
      simp [AEAD.Seal]
    rw [h, Open_Seal]
    simp
  · intro hpos hlt
    exact Encrypt_compliance E c out n ad p hname hpos hlt
  · exact Encrypt_plain E c out n ad [] (fun h => absurd h.1 (by simp))

/-- Witness of C5, amended: the compliance cipher with associated data `[7]`
and plaintext `[1, 2]` in the `fips` build. -/
theorem key_material_framing_witness :
    Fips.Encrypt samplePEC ((Fips.CipherAESGCMFIPS samplePrimitives).Cipher sampleKey)
      [] 0 [7] [1, 2] = some [250, 1, 2] ∧
    Fips.Encrypt samplePEC ((Fips.CipherAESGCMFIPS samplePrimitives).Cipher sampleKey)
      [] 0 [7] [1, 2] =
      some (((Fips.CipherAESGCMFIPS samplePrimitives).Cipher sampleKey).aead.Seal []
        (((Fips.CipherAESGCMFIPS samplePrimitives).Cipher sampleKey).nonce 0) [1, 2] [7]) :=
  ⟨by decide,
    (key_material_framing sampleEngine samplePEC
      ((Fips.CipherAESGCMFIPS samplePrimitives).Cipher sampleKey) [] 0 [7] [1, 2]
      (by decide) (by decide)).1.1⟩

/-- Counterexample to C10: in the `fips` build the compliance cipher seals the
plaintext `[1, 2, 3]` first and passes the sealed message through the engine
afterwards, which is not the seal of the engine output; and in
`cipher_suite.go` a plaintext of 8096 bytes gives no result at all. -/
theorem pipeline_order_differs :
    Fips.Encrypt samplePEC ((Fips.CipherAESGCMFIPS samplePrimitives).Cipher sampleKey)
      [] 0 [] [1, 2, 3] = some [80, 246, 1, 2, 3] ∧
    ((Fips.CipherAESGCMFIPS samplePrimitives).Cipher sampleKey).aead.Seal []
      (((Fips.CipherAESGCMFIPS samplePrimitives).Cipher sampleKey).nonce 0)
      (samplePEC.EncryptText_GO sampleKey [1, 2, 3]) [] = [70, 80, 1, 2, 3] ∧
    aeadCipher.Encrypt sampleEngine ((CipherAESGCMFIPS samplePrimitives).Cipher sampleKey)
      [9] 1 [] (List.replicate 8096 7) = none :=
  ⟨by decide, by decide,
    Encrypt_overflow sampleEngine _ [9] 1 [] _ rfl (by rw [List.length_replicate])⟩

/-- C10, amended. Under empty associated data, in `cipher_suite.go`: a cipher
with the compliance identity seals the engine output of a non-empty plaintext
shorter than 8096 bytes, keyed from its own key, and appends the result to
`out`; every other identity, and the empty plaintext, is sealed unchanged.  In
the `fips` build the order is the reverse: the compliance identity seals the
plaintext onto `out` and returns the PEC encryption of that buffer when it
fits the scratch array, and every other identity returns the plain seal.  The
`!fips` build always returns the plain seal. -/
theorem encrypt_pipeline (E : Engine) (X : PEC) (c : aeadCipher) (out : Bytes) (n : Nat)
    (p : Bytes) :
    ((c.Name = "AESGCMFIPS" → 0 < p.length → p.length < 8096 →
        aeadCipher.Encrypt E c out n [] p =
          some (c.aead.Seal out (c.nonce n) (E.EncryptUpdate c.Key (c.Key.take 15) p) [])) ∧
      (c.Name ≠ "AESGCMFIPS" ∨ p = [] →
        aeadCipher.Encrypt E c out n [] p = some (c.aead.Seal out (c.nonce n) p []))) ∧
    ((c.Name = "AESGCMFIPS" → 0 < (c.aead.Seal out (c.nonce n) p []).length →
        (X.EncryptText_GO c.Key (c.aead.Seal out (c.nonce n) p [])).length ≤ 8096 →
        Fips.Encrypt X c out n [] p =
          some (X.EncryptText_GO c.Key (c.aead.Seal out (c.nonce n) p []))) ∧
      (c.Name ≠ "AESGCMFIPS" →
        Fips.Encrypt X c out n [] p = some (c.aead.Seal out (c.nonce n) p []))) ∧
    NoFips.Encrypt c out n [] p = c.aead.Seal out (c.nonce n) p [] := by
  refine ⟨⟨?_, ?_⟩, ⟨?_, ?_⟩, rfl⟩
  · intro hname hpos hlt
    exact Encrypt_compliance E c out n [] p hname hpos hlt
  · intro h
    refine Encrypt_plain E c out n [] p ?_
    rintro ⟨hpos, hname⟩
    rcases h with h | h
    · exact h hname
    · subst h
      exact absurd hpos (by simp)
  · intro hname hpos hle
    rw [fips_Encrypt_compliance X c out n p hname hpos]
    exact fips_EncryptPEC_of_le X c.Key _ hpos hle
  · intro hname
    exact fips_Encrypt_plain X c out n [] p (fun h => hname h.2)

/-- Witness of C10, amended: the compliance cipher and the AES-GCM cipher of
`cipher_suite.go` on the plaintext `[1, 2, 3]`. -/
theorem encrypt_pipeline_witness :
    aeadCipher.Encrypt sampleEngine ((CipherAESGCMFIPS samplePrimitives).Cipher sampleKey)
      [9] 5 [] [1, 2, 3] = some [9, 250, 0, 3, 2] ∧
    sampleEngine.EncryptUpdate sampleKey (sampleKey.take 15) [1, 2, 3] = [0, 3, 2] ∧
    aeadCipher.Encrypt sampleEngine ((CipherAESGCMFIPS samplePrimitives).Cipher sampleKey)
      [9] 5 [] [1, 2, 3] =
      some (((CipherAESGCMFIPS samplePrimitives).Cipher sampleKey).aead.Seal [9]
        (((CipherAESGCMFIPS samplePrimitives).Cipher sampleKey).nonce 5)
        (sampleEngine.EncryptUpdate sampleKey (sampleKey.take 15) [1, 2, 3]) []) ∧
    aeadCipher.Encrypt sampleEngine ((CipherAESGCM samplePrimitives).Cipher sampleKey)
      [9] 5 [] [1, 2, 3] =
      some (((CipherAESGCM samplePrimitives).Cipher sampleKey).aead.Seal [9]
        (((CipherAESGCM samplePrimitives).Cipher sampleKey).nonce 5) [1, 2, 3] []) :=
  ⟨by decide, by decide,
    (encrypt_pipeline sampleEngine samplePEC
      ((CipherAESGCMFIPS samplePrimitives).Cipher sampleKey) [9] 5 [1, 2, 3]).1.1
      (by decide) (by decide) (by decide),
    (encrypt_pipeline sampleEngine samplePEC
      ((CipherAESGCM samplePrimitives).Cipher sampleKey) [9] 5 [1, 2, 3]).1.2
      (Or.inl (by decide))⟩

/-! ## Errors and the `out` buffer of Decrypt -/

/-- C8, the code at the failing input. Under the compliance identity `Decrypt` of
`cipher_suite.go` with `out = [9]` returns the engine output for the whole
opened buffer: `[8, 1, 2, 3]` instead of `[9, 1, 2, 3]` for the ciphertext of
`[1, 2, 3]`, and `[8]` instead of `[9]` for the ciphertext of the empty
plaintext.  The AES-GCM cipher returns `[9, 1, 2, 3]`. -/
theorem decrypt_compliance_discards_out :
    aeadCipher.Encrypt sampleEngine ((CipherAESGCMFIPS samplePrimitives).Cipher sampleKey)
      [] 5 [] [1, 2, 3] = some [250, 0, 3, 2] ∧
    aeadCipher.Decrypt sampleEngine ((CipherAESGCMFIPS samplePrimitives).Cipher sampleKey)
      [] 5 [] [250, 0, 3, 2] = some ([1, 2, 3], none) ∧
    aeadCipher.Decrypt sampleEngine ((CipherAESGCMFIPS samplePrimitives).Cipher sampleKey)
      [9] 5 [] [250, 0, 3, 2] = some ([8, 1, 2, 3], none) ∧
    aeadCipher.Encrypt sampleEngine ((CipherAESGCMFIPS samplePrimitives).Cipher sampleKey)
      [] 5 [] [] = some [245] ∧
    aeadCipher.Decrypt sampleEngine ((CipherAESGCMFIPS samplePrimitives).Cipher sampleKey)
      [9] 5 [] [245] = some ([8], none) ∧
    aeadCipher.Encrypt sampleEngine ((CipherAESGCM samplePrimitives).Cipher sampleKey)
      [] 5 [] [1, 2, 3] = some [251, 1, 2, 3] ∧
    aeadCipher.Decrypt sampleEngine ((CipherAESGCM samplePrimitives).Cipher sampleKey)
      [9] 5 [] [251, 1, 2, 3] = some ([9, 1, 2, 3], none) :=
  ⟨by decide, by decide, by decide, by decide, by decide, by decide, by decide⟩

end Noise
